import Mathlib

/-!
# Verification of `scripts/DICOM-CBCT-stats.py`

A shallow embedding of the DICOM-header extraction script and proofs about
its normalization, deduplication and CSV-export behaviour.

Modelling conventions:
* A parsed DICOM dataset is an association list from attribute names to
  Python values (`Dicom`); `getattr(ds, name, default)` with an absent
  attribute yields the default, and plain attribute access on an absent
  attribute raises `AttributeError`.
* Python runtime errors are made explicit with `Except PyErr`; a value of
  `.error _` models the script crashing at that point.
* Python `float` values are modelled exactly as rationals (`Rat`): every
  numeric value that the script manipulates (decimal digit strings, an
  integer dose, multiplication by `100.0`) is exactly representable, so no
  rounding behaviour is observable in the properties proved here.
-/

set_option autoImplicit false

namespace DicomStats

/-- Python runtime errors that the script can raise. -/
inductive PyErr where
  | typeError
  | attributeError
  | valueError
  deriving DecidableEq, Repr

/-- A Python value stored in a DICOM attribute: a string, an integer, a
float (modelled exactly as a rational), or a multi-valued string list
(pydicom `MultiValue`, e.g. `ImageType`). -/
inductive PyVal where
  | str : String → PyVal
  | int : Int → PyVal
  | float : Rat → PyVal
  | multi : List String → PyVal
  deriving DecidableEq, Repr

deriving instance DecidableEq for Except

/-- A parsed DICOM dataset: attribute name → value, first binding wins. -/
abbrev Dicom := List (String × PyVal)

/-- `getattr(ds, k, None)`: the attribute value, or `none` when absent. -/
def getattrOpt (d : Dicom) (k : String) : Option PyVal :=
  (d.find? (fun p => decide (p.1 = k))).map (fun p => p.2)

/-- `getattr(ds, k, "")`, as used by the CSV export. -/
def getattrDefault (d : Dicom) (k : String) : PyVal :=
  (getattrOpt d k).getD (.str "")

/-- `setattr`: overwrite the (first) binding of `k`, or append it. -/
def setAttr : Dicom → String → PyVal → Dicom
  | [], k, v => [(k, v)]
  | (k', v') :: t, k, v =>
    if k' = k then (k, v) :: t else (k', v') :: setAttr t k v

/-- Python truthiness of the values that can appear in an attribute. -/
def truthy : PyVal → Bool
  | .str s => decide (s ≠ "")
  | .int n => decide (n ≠ 0)
  | .float q => decide (q ≠ 0)
  | .multi l => decide (l ≠ [])

/-- `leadsWith pat l`: does `l` start with `pat`? -/
def leadsWith : List Char → List Char → Bool
  | [], _ => true
  | _ :: _, [] => false
  | a :: as, b :: bs => decide (a = b) && leadsWith as bs

/-- `containsSub nd hay`: Python's substring test `nd in hay`. -/
def containsSub (nd : List Char) : List Char → Bool
  | [] => leadsWith nd []
  | c :: t => leadsWith nd (c :: t) || containsSub nd t

/-- The characters removed by Python `str.strip()` (the ASCII ones; no
other whitespace occurs in this development). -/
def isSpace (c : Char) : Bool :=
  c = ' ' || c = '\t' || c = '\n' || c = '\r' || c = '\x0b' || c = '\x0c'

/-- Python `str.strip()`: drop leading and trailing whitespace. -/
def stripList (l : List Char) : List Char :=
  ((l.dropWhile isSpace).reverse.dropWhile isSpace).reverse

/-- Python `needle in x` for the values `x` that line 64 of the script can
test: `None` and numbers raise `TypeError`, a string is a substring test,
a pydicom `MultiValue` is element membership. -/
def pyIn (needle : String) : Option PyVal → Except PyErr Bool
  | none => .error .typeError
  | some (.str s) => .ok (containsSub needle.data s.data)
  | some (.multi l) => .ok (decide (needle ∈ l))
  | some (.int _) => .error .typeError
  | some (.float _) => .error .typeError

/-- Numeric value of a decimal digit string. -/
def natVal (l : List Char) : Nat :=
  l.foldl (fun a c => 10 * a + (c.toNat - 48)) 0

/-- Python `float()` on a plain decimal literal: optional surrounding
whitespace, optional sign, digits with an optional fractional part.
Exponent, `inf` and `nan` forms are not modelled (none occurs in this
program's data paths, which convert digit strings and numbers). -/
def parseFloatMag (l1 : List Char) : Option Rat :=
  match l1.dropWhile Char.isDigit with
  | [] =>
    if l1.takeWhile Char.isDigit = [] then none
    else some ((natVal (l1.takeWhile Char.isDigit) : Nat) : Rat)
  | '.' :: r2 =>
    if r2.dropWhile Char.isDigit = [] ∧
        (l1.takeWhile Char.isDigit ≠ [] ∨ r2.takeWhile Char.isDigit ≠ []) then
      some ((natVal (l1.takeWhile Char.isDigit) : Nat) +
        (natVal (r2.takeWhile Char.isDigit) : Nat) / (10 : Rat) ^ (r2.takeWhile Char.isDigit).length)
    else none
  | _ => none

/-- The unsigned magnitude accepted here is `\d+`, `\d+.\d*` or `.\d+`;
`parseFloatChars` strips surrounding whitespace and handles the optional
sign. -/
def parseFloatChars (l0 : List Char) : Option Rat :=
  match stripList l0 with
  | '-' :: r => (parseFloatMag r).map (fun q => -q)
  | '+' :: r => parseFloatMag r
  | l => parseFloatMag l

/-- Python `float(x)` on the values the script converts: numbers pass
through, strings are parsed (`ValueError` on failure), and non-numeric
non-string values raise `TypeError`. -/
def pyFloat : PyVal → Except PyErr Rat
  | .int n => .ok (n : Rat)
  | .float q => .ok q
  | .str s =>
    match parseFloatChars s.data with
    | some q => .ok q
    | none => .error .valueError
  | .multi _ => .error .typeError

/-! ## The two regular expressions of the script

`re.search` scans for the leftmost position at which the pattern matches.
Both patterns are implemented directly; in each one the greedy
backtracking of `\d+` / `\d*` is vacuous because the character required
immediately after a digit run (`m` resp. `.`) is itself not a digit, so
maximal munch is the unique possible match. -/

/-- Match of `DAP:(\d+mGycm2)` anchored at the start of the input;
returns the whole match (`group(0)`). -/
def dapMatchAt (cs : List Char) : Option (List Char) :=
  match cs with
  | 'D' :: 'A' :: 'P' :: ':' :: rest =>
    if rest.takeWhile Char.isDigit ≠ [] ∧
        leadsWith ("mGycm2".data) (rest.dropWhile Char.isDigit) then
      some ('D' :: 'A' :: 'P' :: ':' :: (rest.takeWhile Char.isDigit ++ "mGycm2".data))
    else none
  | _ => none

/-- The `\d+` alternative of the number pattern, anchored. -/
def numAlt2 (cs : List Char) : Option (List Char) :=
  if cs.takeWhile Char.isDigit = [] then none else some (cs.takeWhile Char.isDigit)

/-- The `\d*\.\d+` part of the first alternative (after the optional
sign), anchored. -/
def numAlt1Core (l : List Char) : Option (List Char) :=
  match l.dropWhile Char.isDigit with
  | '.' :: r2 =>
    if r2.takeWhile Char.isDigit ≠ [] then
      some (l.takeWhile Char.isDigit ++ '.' :: r2.takeWhile Char.isDigit)
    else none
  | _ => none

/-- Match of `[-+]?\d*\.\d+|\d+` anchored at the start of the input: try
the first alternative (with its optional sign), then the second. -/
def numMatchAt (cs : List Char) : Option (List Char) :=
  match cs with
  | [] => none
  | c :: r =>
    if c = '-' ∨ c = '+' then
      match numAlt1Core r with
      | some n => some (c :: n)
      | none => numAlt2 (c :: r)
    else
      match numAlt1Core (c :: r) with
      | some n => some n
      | none => numAlt2 (c :: r)

/-- `re.search`: first position (left to right) where the anchored
matcher `f` succeeds. -/
def searchFirst (f : List Char → Option (List Char)) : List Char → Option (List Char)
  | [] => f []
  | c :: cs =>
    match f (c :: cs) with
    | some r => some r
    | none => searchFirst f cs

/-- `extract_value_from_comments(comments, "DAP:(\d+mGycm2)")`, specialized
to the single pattern it is ever called with.  When the first search finds
no match, `match.group(0)` is attribute access on `None`: `AttributeError`.
The `return None` fall-through of the script is kept (`.ok none`), although
it is unreachable in practice because the first match always contains
digits.  A `None`/non-string `comments` argument is handled at the call
site (`re.search` on it raises `TypeError`). -/
def extract_value_from_comments (comments : String) : Except PyErr (Option String) :=
  match searchFirst dapMatchAt comments.data with
  | none => .error .attributeError
  | some g =>
    match searchFirst numMatchAt g with
    | some n => .ok (some (String.mk n))
    | none => .ok none

/-! ## Filesystem model and `count_files` -/

/-- A directory: the regular files directly inside it and its
subdirectories. -/
inductive DirTree where
  | node : List String → List DirTree → DirTree

mutual

/-- Recursive count of regular files in a directory (the `os.walk` loop of
`count_files`). -/
def countTree : DirTree → Nat
  | .node fs ds => fs.length + countTrees ds

/-- File count summed over a list of subdirectories. -/
def countTrees : List DirTree → Nat
  | [] => 0
  | t :: ts => countTree t + countTrees ts

end

/-- `count_files(path)`: `0` when the path does not exist (`none`),
otherwise the recursive regular-file count. -/
def count_files : Option DirTree → Nat
  | none => 0
  | some t => countTree t

/-! ## Per-record normalization (lines 68–73 of the script) -/

/-- The Morita dose computation:
`float(extract_value_from_comments(getattr(dicom, "ImageComments", None), ...))`.
`re.search` on a `None` or non-string comments value raises `TypeError`,
and so does `float(None)` if the extraction were ever to return `None`. -/
def moritaDose (comments : Option PyVal) : Except PyErr Rat :=
  match comments with
  | some (.str c) =>
    match extract_value_from_comments c with
    | .error e => .error e
    | .ok none => .error .typeError
    | .ok (some s) => pyFloat (.str s)
  | _ => .error .typeError

/-- The vendor dispatch on `getattr(dicom, 'Manufacturer', None).strip()`:
a missing manufacturer (`None.strip()`) or a non-string one raises
`AttributeError`; a manufacturer containing `"Morita"` gets the DAP dose
extracted from the comments; otherwise one containing `"Planmeca"` gets
`ImagesInAcquisition` set to the file count and its dose multiplied by
`100.0` (plain attribute access on a missing dose raises
`AttributeError`); any other record passes through unchanged. -/
def normalizeRecord (root : Option DirTree) (d : Dicom) : Except PyErr Dicom :=
  match getattrOpt d "Manufacturer" with
  | some (.str m) =>
    if containsSub ("Morita".data) (stripList m.data) then
      match moritaDose (getattrOpt d "ImageComments") with
      | .ok q => .ok (setAttr d "AcquiredImageAreaDoseProduct" (.float q))
      | .error e => .error e
    else if containsSub ("Planmeca".data) (stripList m.data) then
      let d1 := setAttr d "ImagesInAcquisition" (.int (count_files root))
      match getattrOpt d1 "AcquiredImageAreaDoseProduct" with
      | none => .error .attributeError
      | some v =>
        match pyFloat v with
        | .ok q => .ok (setAttr d1 "AcquiredImageAreaDoseProduct" (.float (q * 100)))
        | .error e => .error e
    else .ok d
  | _ => .error .attributeError

/-! ## The traversal loop of `process_directory` -/

/-- One file met during the `os.walk` traversal: the directory that
contains it (for `count_files(root)`), and its parse result — `none` when
`is_dicom_file` fails, i.e. the file is silently skipped. -/
structure FileEntry where
  root : Option DirTree
  dicom : Option Dicom

/-- The examination map `dicom_headers`: Series Instance UID → dataset,
in insertion order (Python dicts preserve it). -/
abbrev HeaderMap := List (PyVal × Dicom)

/-- Is `u` already a key of the map (`uid in dicom_headers`)? -/
def keyMem (m : HeaderMap) (u : PyVal) : Bool :=
  m.any (fun p => decide (p.1 = u))

/-- `dicom_headers[u]` as a total lookup. -/
def lookupM (m : HeaderMap) (u : PyVal) : Option Dicom :=
  (m.find? (fun p => decide (p.1 = u))).map (fun p => p.2)

/-- Number of rows of the map keyed by `u`. -/
def countKey (m : HeaderMap) (u : PyVal) : Nat :=
  m.countP (fun p => decide (p.1 = u))

/-- Lines 66–75: the identifier guard, vendor normalization and insertion
for one record.  A falsy (`None` or empty) identifier or an already-seen
identifier skips the record silently. -/
def insertStep (m : HeaderMap) (root : Option DirTree) (d : Dicom) : Except PyErr HeaderMap :=
  match getattrOpt d "SeriesInstanceUID" with
  | none => .ok m
  | some u =>
    if truthy u then
      if keyMem m u then .ok m
      else
        match normalizeRecord root d with
        | .ok d1 => .ok (m ++ [(u, d1)])
        | .error e => .error e
    else .ok m

/-- Lines 60–75: one file of the traversal.  A non-DICOM file is skipped;
then `if "DERIVED" in getattr(dicom, "ImageType", None): continue` — which
raises `TypeError` when the attribute is absent — and the insertion step. -/
def processEntry (m : HeaderMap) (e : FileEntry) : Except PyErr HeaderMap :=
  match e.dicom with
  | none => .ok m
  | some d =>
    match pyIn "DERIVED" (getattrOpt d "ImageType") with
    | .error er => .error er
    | .ok true => .ok m
    | .ok false => insertStep m e.root d

/-- The traversal loop over the files, threading the examination map. -/
def processList (m : HeaderMap) : List FileEntry → Except PyErr HeaderMap
  | [] => .ok m
  | e :: es =>
    match processEntry m e with
    | .ok m1 => processList m1 es
    | .error er => .error er

/-- `process_directory`: fold the traversal over an empty map. -/
def process_directory (es : List FileEntry) : Except PyErr HeaderMap :=
  processList [] es

/-- A traversal entry qualifies for identifier `u`: it parsed, its derived
test evaluated to `False`, and its Series Instance UID is `u` and truthy
(present and non-empty).  These are exactly the records that reach the
insertion (or duplicate-skip) point of the loop with identifier `u`. -/
def qualifies (e : FileEntry) (u : PyVal) : Bool :=
  match e.dicom with
  | none => false
  | some d =>
    match pyIn "DERIVED" (getattrOpt d "ImageType") with
    | .ok false =>
      match getattrOpt d "SeriesInstanceUID" with
      | some u2 => decide (u2 = u) && truthy u2
      | none => false
    | _ => false

/-! ## CSV export (`clean_value`, `dicom_headers_to_csv`) -/

/-- Single-character `str.replace`; with one-character arguments Python's
`str.replace` is exactly a character map. -/
def replaceChar (a b : Char) (l : List Char) : List Char :=
  l.map (fun c => if c = a then b else c)

/-- `clean_value`: on strings, `'\n'` → `' '`, then `'\r'` → `' '`, then
`','` → `';'`; every other value passes through. -/
def clean_value : PyVal → PyVal
  | .str s => .str (String.mk (replaceChar ',' ';' (replaceChar '\r' ' ' (replaceChar '\n' ' ' s.data))))
  | v => v

/-- The value written in the column of field `f` for dataset `d`:
`clean_value(getattr(dicom, field, ""))`. -/
def cellOf (d : Dicom) (f : String) : PyVal :=
  clean_value (getattrDefault d f)

/-- The row of a dataset over the selected fields. -/
def rowCells (d : Dicom) (fields : List String) : List PyVal :=
  fields.map (cellOf d)

/-- One data row per map entry, in map order. -/
def dicom_headers_to_csv (m : HeaderMap) (select : List String) : List (List PyVal) :=
  m.map (fun p => rowCells p.2 select)

/-- The textual form of a cell as written to the file; only string cells
are modelled (the decimal rendering of Python numbers is irrelevant to the
claims and is not modelled). -/
def cellText : PyVal → Option (List Char)
  | .str s => some s.data
  | _ => none

/-- Textual cells of a whole row, defined when every cell is a string. -/
def cellsText : List PyVal → Option (List (List Char))
  | [] => some []
  | v :: vs =>
    match cellText v, cellsText vs with
    | some c, some cs => some (c :: cs)
    | _, _ => none

/-- The textual row of a dataset over the selected fields. -/
def rowText (d : Dicom) (fields : List String) : Option (List (List Char)) :=
  cellsText (rowCells d fields)

/-- Does a field require quoting under `csv.QUOTE_MINIMAL` with delimiter
`';'` (field contains the delimiter, the quote character, or a line
break)? -/
def needsQuoteC (c : Char) : Bool :=
  c = ';' || c = '"' || c = '\n' || c = '\r'

/-- Double every quote character (`doublequote=True`). -/
def escQuotes : List Char → List Char
  | [] => []
  | c :: r => if c = '"' then '"' :: '"' :: escQuotes r else c :: escQuotes r

/-- Write one field under `csv.QUOTE_MINIMAL`. -/
def quoteField (f : List Char) : List Char :=
  if f.any needsQuoteC then '"' :: (escQuotes f ++ ['"']) else f

/-- Write one record (row) with delimiter `';'`. -/
def writeRow : List (List Char) → List Char
  | [] => []
  | [f] => quoteField f
  | f :: g :: t => quoteField f ++ ';' :: writeRow (g :: t)

/-- A standard CSV reader for one record with delimiter `';'` and quote
character `'"'` (the claim's “re-read with the same delimiter”): outside
quotes the delimiter splits fields and a quote opens a quoted section;
inside quotes a doubled quote is a literal quote and a single quote closes
the section. -/
def parseAux : Bool → List Char → List Char → List (List Char)
  | _, cur, [] => [cur.reverse]
  | true, cur, c :: rest =>
    if c = '"' then
      match rest with
      | c2 :: rest2 =>
        if c2 = '"' then parseAux true ('"' :: cur) rest2
        else parseAux false cur (c2 :: rest2)
      | [] => [cur.reverse]
    else parseAux true (c :: cur) rest
  | false, cur, c :: rest =>
    if c = ';' then cur.reverse :: parseAux false [] rest
    else if c = '"' then parseAux true cur rest
    else parseAux false (c :: cur) rest

/-- Parse one written record back into its fields. -/
def parseRow (l : List Char) : List (List Char) :=
  parseAux false [] l

/-! ## Lemmas: attribute access and the examination map -/

theorem getattrOpt_cons (k' : String) (v' : PyVal) (t : Dicom) (k : String) :
    getattrOpt ((k', v') :: t) k = if k' = k then some v' else getattrOpt t k := by
  by_cases h : k' = k <;> simp [getattrOpt, List.find?_cons, h]

theorem getattrOpt_setAttr_self (d : Dicom) (k : String) (v : PyVal) :
    getattrOpt (setAttr d k v) k = some v := by
  induction d with
  | nil => simp [setAttr, getattrOpt_cons]
  | cons p t ih =>
    obtain ⟨k', v'⟩ := p
    by_cases h : k' = k
    · simp [setAttr, h, getattrOpt_cons]
    · simp [setAttr, h, getattrOpt_cons, ih]

theorem getattrOpt_setAttr_other (d : Dicom) (k : String) (v : PyVal) (k2 : String)
    (hne : k ≠ k2) : getattrOpt (setAttr d k v) k2 = getattrOpt d k2 := by
  induction d with
  | nil => simp [setAttr, getattrOpt_cons, hne]
  | cons p t ih =>
    obtain ⟨k', v'⟩ := p
    by_cases h : k' = k
    · subst h; simp [setAttr, getattrOpt_cons, hne]
    · simp [setAttr, h, getattrOpt_cons, ih]

theorem keyMem_cons (p : PyVal × Dicom) (t : HeaderMap) (u : PyVal) :
    keyMem (p :: t) u = (decide (p.1 = u) || keyMem t u) := by
  simp [keyMem]

theorem lookupM_cons (p : PyVal × Dicom) (t : HeaderMap) (u : PyVal) :
    lookupM (p :: t) u = if p.1 = u then some p.2 else lookupM t u := by
  by_cases h : p.1 = u <;> simp [lookupM, List.find?_cons, h]

theorem countKey_cons (p : PyVal × Dicom) (t : HeaderMap) (u : PyVal) :
    countKey (p :: t) u = (if p.1 = u then 1 else 0) + countKey t u := by
  by_cases h : p.1 = u <;> simp [countKey, List.countP_cons, h, Nat.add_comm]

theorem keyMem_append (a b : HeaderMap) (u : PyVal) :
    keyMem (a ++ b) u = (keyMem a u || keyMem b u) := by
  simp [keyMem]

theorem countKey_append (a b : HeaderMap) (u : PyVal) :
    countKey (a ++ b) u = countKey a u + countKey b u := by
  simp [countKey, List.countP_append]

theorem lookupM_append (a b : HeaderMap) (u : PyVal) :
    lookupM (a ++ b) u = if keyMem a u then lookupM a u else lookupM b u := by
  induction a with
  | nil => simp [keyMem, lookupM]
  | cons p t ih =>
    by_cases h : p.1 = u
    · simp [lookupM_cons, keyMem_cons, h]
    · simp [lookupM_cons, keyMem_cons, h, ih]

theorem lookupM_eq_none_of_keyMem_false {m : HeaderMap} {u : PyVal}
    (h : keyMem m u = false) : lookupM m u = none := by
  induction m with
  | nil => rfl
  | cons p t ih =>
    rw [keyMem_cons] at h
    rcases Bool.or_eq_false_iff.mp h with ⟨h1, h2⟩
    rw [lookupM_cons, if_neg (by simpa using h1)]
    exact ih h2

theorem countKey_eq_zero_of_keyMem_false {m : HeaderMap} {u : PyVal}
    (h : keyMem m u = false) : countKey m u = 0 := by
  induction m with
  | nil => rfl
  | cons p t ih =>
    rw [keyMem_cons] at h
    rcases Bool.or_eq_false_iff.mp h with ⟨h1, h2⟩
    rw [countKey_cons, if_neg (by simpa using h1), ih h2]

theorem countKey_single_self (u : PyVal) (d : Dicom) : countKey [(u, d)] u = 1 := by
  simp [countKey, List.countP_cons]

theorem countKey_single_other (u0 : PyVal) (d : Dicom) (u : PyVal) (h : ¬ u0 = u) :
    countKey [(u0, d)] u = 0 := by
  simp [countKey, List.countP_cons, h]

/-! ## Lemmas: substring search and `strip` -/

theorem leadsWith_iff (nd : List Char) : ∀ l : List Char,
    leadsWith nd l = true ↔ ∃ t, l = nd ++ t := by
  induction nd with
  | nil => intro l; simp [leadsWith]
  | cons a as ih =>
    intro l
    cases l with
    | nil => simp [leadsWith]
    | cons b bs =>
      simp only [leadsWith, Bool.and_eq_true, decide_eq_true_eq, ih, List.cons_append]
      constructor
      · rintro ⟨rfl, t, rfl⟩; exact ⟨t, rfl⟩
      · rintro ⟨t, h⟩
        injection h with h1 h2
        exact ⟨h1.symm, t, h2⟩

theorem containsSub_iff (nd : List Char) : ∀ l : List Char,
    containsSub nd l = true ↔ ∃ p s, l = p ++ nd ++ s := by
  intro l
  induction l with
  | nil =>
    simp only [containsSub, leadsWith_iff]
    constructor
    · rintro ⟨t, h⟩
      exact ⟨[], t, by simpa using h⟩
    · rintro ⟨p, s, h⟩
      rcases List.append_eq_nil.mp h.symm with ⟨h1, h2⟩
      rcases List.append_eq_nil.mp h1 with ⟨h3, h4⟩
      exact ⟨s, by simp [h4, h2]⟩
  | cons c t ih =>
    simp only [containsSub, Bool.or_eq_true, leadsWith_iff, ih]
    constructor
    · rintro (⟨s, h⟩ | ⟨p, s, h⟩)
      · exact ⟨[], s, by simpa using h⟩
      · exact ⟨c :: p, s, by simp [h]⟩
    · rintro ⟨p, s, h⟩
      cases p with
      | nil => exact Or.inl ⟨s, by simpa using h⟩
      | cons c' p' =>
        injection h with h1 h2
        exact Or.inr ⟨p', s, by simpa using h2⟩

theorem containsSub_rev_imp (nd l : List Char) (h : containsSub nd l = true) :
    containsSub nd.reverse l.reverse = true := by
  rw [containsSub_iff] at h ⊢
  obtain ⟨p, s, rfl⟩ := h
  exact ⟨s.reverse, p.reverse, by simp⟩

theorem containsSub_dropWhile (q : Char → Bool) (nd : List Char) (h0 : nd ≠ [])
    (h1 : ∀ c ∈ nd, q c = false) :
    ∀ l : List Char, containsSub nd l = true → containsSub nd (l.dropWhile q) = true := by
  intro l
  induction l with
  | nil =>
    intro h
    cases nd with
    | nil => exact absurd rfl h0
    | cons a as => simp [containsSub, leadsWith] at h
  | cons c t ih =>
    intro h
    by_cases hq : q c = true
    · rw [List.dropWhile_cons_of_pos hq]
      apply ih
      rw [containsSub] at h
      rcases Bool.or_eq_true_iff.mp h with hl | hr
      · exfalso
        cases nd with
        | nil => exact h0 rfl
        | cons a as =>
          rw [leadsWith, Bool.and_eq_true, decide_eq_true_eq] at hl
          have ha := h1 a (List.mem_cons_self a as)
          rw [hl.1] at ha
          rw [ha] at hq
          exact Bool.false_ne_true hq
      · exact hr
    · rw [List.dropWhile_cons_of_neg hq]
      exact h

theorem containsSub_stripList (nd l : List Char) (h0 : nd ≠ [])
    (h1 : ∀ c ∈ nd, isSpace c = false) (h : containsSub nd l = true) :
    containsSub nd (stripList l) = true := by
  have s1 := containsSub_dropWhile isSpace nd h0 h1 l h
  have s2 := containsSub_rev_imp nd _ s1
  have h0r : nd.reverse ≠ [] := by simpa using h0
  have h1r : ∀ c ∈ nd.reverse, isSpace c = false := fun c hc => h1 c (List.mem_reverse.mp hc)
  have s3 := containsSub_dropWhile isSpace nd.reverse h0r h1r _ s2
  have s4 := containsSub_rev_imp nd.reverse _ s3
  simpa [stripList] using s4

theorem stripList_split (l : List Char) : ∃ p s, l = p ++ stripList l ++ s := by
  refine ⟨l.takeWhile isSpace, ((l.dropWhile isSpace).reverse.takeWhile isSpace).reverse, ?_⟩
  conv_lhs => rw [← List.takeWhile_append_dropWhile (p := isSpace) (l := l)]
  rw [List.append_assoc]
  congr 1
  conv_lhs => rw [← List.reverse_reverse (l.dropWhile isSpace),
    ← List.takeWhile_append_dropWhile (p := isSpace) (l := (l.dropWhile isSpace).reverse)]
  rw [List.reverse_append]
  rfl

theorem containsSub_of_strip (nd l : List Char) (h : containsSub nd (stripList l) = true) :
    containsSub nd l = true := by
  rw [containsSub_iff] at h ⊢
  obtain ⟨p, s, hps⟩ := h
  obtain ⟨w, w', hw⟩ := stripList_split l
  exact ⟨w ++ p, s ++ w', by rw [hw, hps]; simp [List.append_assoc]⟩

/-! ## Lemmas: digit runs -/

theorem dropWhile_of_all_neg {p : Char → Bool} : ∀ {l : List Char},
    (∀ c ∈ l, p c = false) → l.dropWhile p = l := by
  intro l h
  cases l with
  | nil => rfl
  | cons c t =>
    have := h c (List.mem_cons_self c t)
    rw [List.dropWhile_cons_of_neg (by simp [this])]

theorem stripList_of_no_space {l : List Char} (h : ∀ c ∈ l, isSpace c = false) :
    stripList l = l := by
  unfold stripList
  rw [dropWhile_of_all_neg h,
    dropWhile_of_all_neg (fun c hc => h c (List.mem_reverse.mp hc)), List.reverse_reverse]

theorem takeWhile_of_all_pos {p : Char → Bool} : ∀ {l : List Char},
    (∀ c ∈ l, p c = true) → l.takeWhile p = l := by
  intro l h
  induction l with
  | nil => rfl
  | cons c t ih =>
    rw [List.takeWhile_cons_of_pos (h c (List.mem_cons_self c t))]
    rw [ih (fun x hx => h x (List.mem_cons_of_mem c hx))]

theorem dropWhile_of_all_pos {p : Char → Bool} : ∀ {l : List Char},
    (∀ c ∈ l, p c = true) → l.dropWhile p = [] := by
  intro l h
  induction l with
  | nil => rfl
  | cons c t ih =>
    rw [List.dropWhile_cons_of_pos (h c (List.mem_cons_self c t))]
    exact ih (fun x hx => h x (List.mem_cons_of_mem c hx))

theorem takeWhile_append_of_neg {p : Char → Bool} {c0 : Char} (r : List Char)
    (hc : p c0 = false) : ∀ {ds : List Char}, (∀ c ∈ ds, p c = true) →
    (ds ++ c0 :: r).takeWhile p = ds := by
  intro ds h
  induction ds with
  | nil => rw [List.nil_append, List.takeWhile_cons_of_neg (by simp [hc])]
  | cons c t ih =>
    rw [List.cons_append, List.takeWhile_cons_of_pos (h c (List.mem_cons_self c t))]
    rw [ih (fun x hx => h x (List.mem_cons_of_mem c hx))]

theorem dropWhile_append_of_neg {p : Char → Bool} {c0 : Char} (r : List Char)
    (hc : p c0 = false) : ∀ {ds : List Char}, (∀ c ∈ ds, p c = true) →
    (ds ++ c0 :: r).dropWhile p = c0 :: r := by
  intro ds h
  induction ds with
  | nil => rw [List.nil_append, List.dropWhile_cons_of_neg (by simp [hc])]
  | cons c t ih =>
    rw [List.cons_append, List.dropWhile_cons_of_pos (h c (List.mem_cons_self c t))]
    exact ih (fun x hx => h x (List.mem_cons_of_mem c hx))

theorem not_space_of_digit {c : Char} (h : c.isDigit = true) : isSpace c = false := by
  by_contra hs
  have hs' : isSpace c = true := by revert hs; cases isSpace c <;> simp
  simp only [isSpace, Bool.or_eq_true, decide_eq_true_eq] at hs'
  rcases hs' with ((((h1 | h1) | h1) | h1) | h1) | h1 <;> subst h1 <;>
    exact absurd h (by decide)

theorem digit_ne {c : Char} (x : Char) (h : c.isDigit = true) (hx : x.isDigit = false) :
    c ≠ x := by
  intro hcx
  rw [hcx, hx] at h
  exact Bool.false_ne_true h

/-! ## Lemmas: the regular-expression searches -/

theorem searchFirst_cons_none {f : List Char → Option (List Char)} {c : Char} {cs : List Char}
    (h : f (c :: cs) = none) : searchFirst f (c :: cs) = searchFirst f cs := by
  simp only [searchFirst, h]

theorem searchFirst_cons_some {f : List Char → Option (List Char)} {c : Char} {cs r : List Char}
    (h : f (c :: cs) = some r) : searchFirst f (c :: cs) = some r := by
  simp only [searchFirst, h]

theorem searchFirst_shape {f : List Char → Option (List Char)} {P : List Char → Prop}
    (hf : ∀ cs r, f cs = some r → P r) :
    ∀ {l r : List Char}, searchFirst f l = some r → P r := by
  intro l
  induction l with
  | nil => intro r h; exact hf [] r h
  | cons c cs ih =>
    intro r h
    cases hfc : f (c :: cs) with
    | some r0 =>
      rw [searchFirst_cons_some hfc] at h
      cases h
      exact hf _ _ hfc
    | none =>
      rw [searchFirst_cons_none hfc] at h
      exact ih h

theorem dapMatchAt_some {cs r : List Char} (h : dapMatchAt cs = some r) :
    ∃ ds : List Char, r = "DAP:".data ++ (ds ++ "mGycm2".data) ∧ ds ≠ [] ∧
      ∀ c ∈ ds, c.isDigit = true := by
  unfold dapMatchAt at h
  split at h
  · split at h
    · next hcond =>
      cases h
      exact ⟨_, rfl, hcond.1, fun c hc => List.mem_takeWhile_imp hc⟩
    · simp at h
  · simp at h

theorem numAlt1Core_none {l : List Char} {c0 : Char} {r : List Char}
    (hd : l.dropWhile Char.isDigit = c0 :: r) (hc : c0 ≠ '.') : numAlt1Core l = none := by
  unfold numAlt1Core
  rw [hd]
  split
  · next r2 heq =>
    injection heq with e1 e2
    exact absurd e1 hc
  · rfl

theorem numAlt2_none {c0 : Char} {r : List Char} (hc : c0.isDigit = false) :
    numAlt2 (c0 :: r) = none := by
  unfold numAlt2
  rw [List.takeWhile_cons_of_neg (by simp [hc]), if_pos rfl]

theorem numMatchAt_none_head {c : Char} {r : List Char} (h1 : c.isDigit = false)
    (h2 : c ≠ '-') (h3 : c ≠ '+') (h4 : c ≠ '.') : numMatchAt (c :: r) = none := by
  simp only [numMatchAt]
  rw [if_neg (by rintro (h | h); exact h2 h; exact h3 h)]
  rw [numAlt1Core_none (List.dropWhile_cons_of_neg (by simp [h1])) h4]
  exact numAlt2_none h1

theorem numMatchAt_digits {ds : List Char} (h0 : ds ≠ []) (h1 : ∀ c ∈ ds, c.isDigit = true) :
    numMatchAt (ds ++ "mGycm2".data) = some ds := by
  cases ds with
  | nil => exact absurd rfl h0
  | cons d0 ds' =>
    have hd0 : d0.isDigit = true := h1 _ (List.mem_cons_self _ _)
    have hm : ('m').isDigit = false := by decide
    have hdw : ((d0 :: ds') ++ "mGycm2".data).dropWhile Char.isDigit = 'm' :: "Gycm2".data :=
      dropWhile_append_of_neg ("Gycm2".data) hm h1
    have htw : ((d0 :: ds') ++ "mGycm2".data).takeWhile Char.isDigit = d0 :: ds' :=
      takeWhile_append_of_neg ("Gycm2".data) hm h1
    have hdw' : (d0 :: (ds' ++ "mGycm2".data)).dropWhile Char.isDigit = 'm' :: "Gycm2".data := by
      rw [← List.cons_append]; exact hdw
    rw [List.cons_append]
    simp only [numMatchAt]
    rw [if_neg (by rintro (h | h) <;> (rw [h] at hd0; exact absurd hd0 (by decide)))]
    rw [numAlt1Core_none hdw' (by decide)]
    show numAlt2 (d0 :: (ds' ++ "mGycm2".data)) = some (d0 :: ds')
    unfold numAlt2
    rw [← List.cons_append, htw, if_neg (by simp)]

theorem searchFirst_num_dap (ds : List Char) (h0 : ds ≠ []) (h1 : ∀ c ∈ ds, c.isDigit = true) :
    searchFirst numMatchAt ("DAP:".data ++ (ds ++ "mGycm2".data)) = some ds := by
  show searchFirst numMatchAt
    ('D' :: 'A' :: 'P' :: ':' :: (ds ++ "mGycm2".data)) = some ds
  rw [searchFirst_cons_none (numMatchAt_none_head (by decide) (by decide) (by decide) (by decide))]
  rw [searchFirst_cons_none (numMatchAt_none_head (by decide) (by decide) (by decide) (by decide))]
  rw [searchFirst_cons_none (numMatchAt_none_head (by decide) (by decide) (by decide) (by decide))]
  rw [searchFirst_cons_none (numMatchAt_none_head (by decide) (by decide) (by decide) (by decide))]
  cases ds with
  | nil => exact absurd rfl h0
  | cons d0 ds' =>
    rw [List.cons_append]
    exact searchFirst_cons_some (by rw [← List.cons_append]; exact numMatchAt_digits h0 h1)

/-! ## Lemmas: float parsing and the extraction chain -/

theorem parseFloatChars_digits (ds : List Char) (h0 : ds ≠ []) (h1 : ∀ c ∈ ds, c.isDigit = true) :
    parseFloatChars ds = some ((natVal ds : Nat) : Rat) := by
  have hns : ∀ c ∈ ds, isSpace c = false := fun c hc => not_space_of_digit (h1 c hc)
  have hstrip : stripList ds = ds := stripList_of_no_space hns
  have hdrop : ds.dropWhile Char.isDigit = [] := dropWhile_of_all_pos h1
  have htake : ds.takeWhile Char.isDigit = ds := takeWhile_of_all_pos h1
  have hmag : parseFloatMag ds = some ((natVal ds : Nat) : Rat) := by
    unfold parseFloatMag
    rw [hdrop]
    show (if ds.takeWhile Char.isDigit = [] then none
      else some ((natVal (ds.takeWhile Char.isDigit) : Nat) : Rat)) = some ((natVal ds : Nat) : Rat)
    rw [htake, if_neg h0]
  cases ds with
  | nil => exact absurd rfl h0
  | cons d0 ds' =>
    have hd0 : d0.isDigit = true := h1 _ (List.mem_cons_self _ _)
    unfold parseFloatChars
    rw [hstrip]
    split
    · next r heq =>
      injection heq with e1 e2
      rw [e1] at hd0
      exact absurd hd0 (by decide)
    · next r heq =>
      injection heq with e1 e2
      rw [e1] at hd0
      exact absurd hd0 (by decide)
    · exact hmag

theorem extract_none {c : String} (h : searchFirst dapMatchAt c.data = none) :
    extract_value_from_comments c = .error .attributeError := by
  unfold extract_value_from_comments
  rw [h]

theorem extract_of_dap_search {c : String} {r : List Char}
    (h : searchFirst dapMatchAt c.data = some r) :
    ∃ ds : List Char, r = "DAP:".data ++ (ds ++ "mGycm2".data) ∧ ds ≠ [] ∧
      (∀ x ∈ ds, x.isDigit = true) ∧
      extract_value_from_comments c = .ok (some (String.mk ds)) := by
  obtain ⟨ds, hr, hne, hdig⟩ :=
    searchFirst_shape (P := fun r => ∃ ds : List Char,
      r = "DAP:".data ++ (ds ++ "mGycm2".data) ∧ ds ≠ [] ∧ ∀ c ∈ ds, c.isDigit = true)
      (fun _ _ hm => dapMatchAt_some hm) h
  refine ⟨ds, hr, hne, hdig, ?_⟩
  simp only [extract_value_from_comments, h, hr, searchFirst_num_dap ds hne hdig]

theorem moritaDose_of_search {c : String} {r : List Char}
    (h : searchFirst dapMatchAt c.data = some r) :
    ∃ ds : List Char, r = "DAP:".data ++ (ds ++ "mGycm2".data) ∧ ds ≠ [] ∧
      (∀ x ∈ ds, x.isDigit = true) ∧
      extract_value_from_comments c = .ok (some (String.mk ds)) ∧
      moritaDose (some (.str c)) = .ok ((natVal ds : Nat) : Rat) := by
  obtain ⟨ds, hr, hne, hdig, hex⟩ := extract_of_dap_search h
  refine ⟨ds, hr, hne, hdig, hex, ?_⟩
  simp only [moritaDose, hex]
  show pyFloat (.str (String.mk ds)) = .ok ((natVal ds : Nat) : Rat)
  simp only [pyFloat]
  rw [parseFloatChars_digits ds hne hdig]

/-! ## Lemmas: the vendor dispatch -/

theorem normalizeRecord_morita {root : Option DirTree} {d : Dicom} {mfr : String} {q : Rat}
    (hm : getattrOpt d "Manufacturer" = some (.str mfr))
    (hmor : containsSub ("Morita".data) (stripList mfr.data) = true)
    (hdose : moritaDose (getattrOpt d "ImageComments") = .ok q) :
    normalizeRecord root d = .ok (setAttr d "AcquiredImageAreaDoseProduct" (.float q)) := by
  simp only [normalizeRecord, hm, hmor, if_true, hdose]

theorem normalizeRecord_morita_err {root : Option DirTree} {d : Dicom} {mfr c : String}
    (hm : getattrOpt d "Manufacturer" = some (.str mfr))
    (hmor : containsSub ("Morita".data) (stripList mfr.data) = true)
    (hc : getattrOpt d "ImageComments" = some (.str c))
    (hs : searchFirst dapMatchAt c.data = none) :
    normalizeRecord root d = .error .attributeError := by
  simp only [normalizeRecord, hm, hmor, if_true, hc, moritaDose, extract_none hs]

theorem normalizeRecord_planmeca {root : Option DirTree} {d : Dicom} {mfr : String}
    {v : PyVal} {q : Rat}
    (hm : getattrOpt d "Manufacturer" = some (.str mfr))
    (hnomor : containsSub ("Morita".data) (stripList mfr.data) = false)
    (hplan : containsSub ("Planmeca".data) (stripList mfr.data) = true)
    (hdose : getattrOpt d "AcquiredImageAreaDoseProduct" = some v)
    (hq : pyFloat v = .ok q) :
    normalizeRecord root d =
      .ok (setAttr (setAttr d "ImagesInAcquisition" (.int (count_files root)))
        "AcquiredImageAreaDoseProduct" (.float (q * 100))) := by
  have hdose1 : getattrOpt (setAttr d "ImagesInAcquisition" (.int (count_files root)))
      "AcquiredImageAreaDoseProduct" = some v := by
    rw [getattrOpt_setAttr_other _ _ _ _ (by decide)]
    exact hdose
  simp [normalizeRecord, hm, hnomor, hplan, hdose1, hq]

theorem normalizeRecord_nomatch {root : Option DirTree} {d : Dicom} {mfr : String}
    (hm : getattrOpt d "Manufacturer" = some (.str mfr))
    (h1 : containsSub ("Morita".data) (stripList mfr.data) = false)
    (h2 : containsSub ("Planmeca".data) (stripList mfr.data) = false) :
    normalizeRecord root d = .ok d := by
  simp [normalizeRecord, hm, h1, h2]

theorem normalizeRecord_nomfr {root : Option DirTree} {d : Dicom}
    (hm : getattrOpt d "Manufacturer" = none) :
    normalizeRecord root d = .error .attributeError := by
  simp [normalizeRecord, hm]

/-! ## Lemmas: the traversal loop -/

theorem processEntry_skip_derived {m : HeaderMap} {e : FileEntry} {d : Dicom}
    (h1 : e.dicom = some d)
    (h2 : pyIn "DERIVED" (getattrOpt d "ImageType") = .ok true) :
    processEntry m e = .ok m := by
  simp [processEntry, h1, h2]

theorem processEntry_err_imagetype {m : HeaderMap} {e : FileEntry} {d : Dicom}
    (h1 : e.dicom = some d) (h2 : getattrOpt d "ImageType" = none) :
    processEntry m e = .error .typeError := by
  simp [processEntry, h1, h2, pyIn]

theorem processEntry_insert {m : HeaderMap} {e : FileEntry} {d : Dicom} {u : PyVal} {d1 : Dicom}
    (h1 : e.dicom = some d)
    (h2 : pyIn "DERIVED" (getattrOpt d "ImageType") = .ok false)
    (h3 : getattrOpt d "SeriesInstanceUID" = some u)
    (h4 : truthy u = true) (h5 : keyMem m u = false)
    (h6 : normalizeRecord e.root d = .ok d1) :
    processEntry m e = .ok (m ++ [(u, d1)]) := by
  simp [processEntry, insertStep, h1, h2, h3, h4, h5, h6]

theorem processEntry_err_normalize {m : HeaderMap} {e : FileEntry} {d : Dicom} {u : PyVal}
    {er : PyErr}
    (h1 : e.dicom = some d)
    (h2 : pyIn "DERIVED" (getattrOpt d "ImageType") = .ok false)
    (h3 : getattrOpt d "SeriesInstanceUID" = some u)
    (h4 : truthy u = true) (h5 : keyMem m u = false)
    (h6 : normalizeRecord e.root d = .error er) :
    processEntry m e = .error er := by
  simp [processEntry, insertStep, h1, h2, h3, h4, h5, h6]

theorem processList_cons (m : HeaderMap) (e : FileEntry) (es : List FileEntry) :
    processList m (e :: es) =
      match processEntry m e with
      | .ok m1 => processList m1 es
      | .error er => .error er := rfl

theorem processList_append (a b : List FileEntry) : ∀ m : HeaderMap,
    processList m (a ++ b) =
      match processList m a with
      | .ok m1 => processList m1 b
      | .error er => .error er := by
  induction a with
  | nil => intro m; rfl
  | cons e a ih =>
    intro m
    rw [List.cons_append, processList_cons, processList_cons]
    cases hpe : processEntry m e with
    | ok m1 => exact ih m1
    | error er => rfl

theorem processEntry_ok_cases {m : HeaderMap} {e : FileEntry} {m1 : HeaderMap}
    (h : processEntry m e = .ok m1) :
    (m1 = m ∧ ∀ u, qualifies e u = true → keyMem m u = true) ∨
    (∃ u d d1, qualifies e u = true ∧ keyMem m u = false ∧ e.dicom = some d ∧
      normalizeRecord e.root d = .ok d1 ∧ m1 = m ++ [(u, d1)] ∧
      ∀ u2, qualifies e u2 = true → u2 = u) := by
  cases he : e.dicom with
  | none =>
    left
    simp only [processEntry, he] at h
    cases h
    exact ⟨rfl, fun u hq => by simp [qualifies, he] at hq⟩
  | some d =>
    cases hit : pyIn "DERIVED" (getattrOpt d "ImageType") with
    | error er => simp [processEntry, he, hit] at h
    | ok b =>
      cases b with
      | true =>
        left
        simp only [processEntry, he, hit] at h
        cases h
        exact ⟨rfl, fun u hq => by simp [qualifies, he, hit] at hq⟩
      | false =>
        simp only [processEntry, he, hit] at h
        cases hu : getattrOpt d "SeriesInstanceUID" with
        | none =>
          left
          simp only [insertStep, hu] at h
          cases h
          exact ⟨rfl, fun u hq => by simp [qualifies, he, hit, hu] at hq⟩
        | some u0 =>
          cases ht : truthy u0 with
          | false =>
            left
            simp only [insertStep, hu, ht] at h
            simp only [Bool.false_eq_true, if_false] at h
            cases h
            exact ⟨rfl, fun u hq => by simp [qualifies, he, hit, hu, ht] at hq⟩
          | true =>
            cases hk : keyMem m u0 with
            | true =>
              left
              simp only [insertStep, hu, ht, hk, if_true] at h
              cases h
              refine ⟨rfl, fun u hq => ?_⟩
              simp only [qualifies, he, hit, hu, Bool.and_eq_true, decide_eq_true_eq] at hq
              rw [← hq.1]
              exact hk
            | false =>
              cases hn : normalizeRecord e.root d with
              | error er => simp [insertStep, hu, ht, hk, hn] at h
              | ok d1 =>
                right
                simp only [insertStep, hu, ht, hk, hn, if_true, Bool.false_eq_true, if_false] at h
                cases h
                refine ⟨u0, d, d1, ?_, hk, rfl, hn, rfl, ?_⟩
                · simp [qualifies, he, hit, hu, ht]
                · intro u2 hq
                  simp only [qualifies, he, hit, hu, Bool.and_eq_true, decide_eq_true_eq] at hq
                  exact hq.1.symm

theorem processList_spec : ∀ (es : List FileEntry) (m0 m : HeaderMap),
    processList m0 es = .ok m → ∀ u : PyVal,
    (keyMem m0 u = true → countKey m u = countKey m0 u ∧ lookupM m u = lookupM m0 u) ∧
    (keyMem m0 u = false →
      ((es.any (fun e => qualifies e u) = false ∧ countKey m u = 0 ∧ lookupM m u = none) ∨
       (∃ e d d1, es.find? (fun e => qualifies e u) = some e ∧ e.dicom = some d ∧
         normalizeRecord e.root d = .ok d1 ∧ countKey m u = 1 ∧ lookupM m u = some d1))) := by
  intro es
  induction es with
  | nil =>
    intro m0 m h u
    simp only [processList] at h
    cases h
    exact ⟨fun _ => ⟨rfl, rfl⟩,
      fun hk => Or.inl ⟨rfl, countKey_eq_zero_of_keyMem_false hk,
        lookupM_eq_none_of_keyMem_false hk⟩⟩
  | cons e es ih =>
    intro m0 m h u
    rw [processList_cons] at h
    cases hpe : processEntry m0 e with
    | error er => rw [hpe] at h; cases h
    | ok m1 =>
      rw [hpe] at h
      have IH := ih m1 m h u
      rcases processEntry_ok_cases hpe with ⟨he1, hskip⟩ | ⟨u0, d, d1, hq0, hk0, hd, hn, hm1, huniq⟩
      · subst he1
        refine ⟨IH.1, fun hk => ?_⟩
        have hqe : qualifies e u = false := by
          cases hqe : qualifies e u with
          | false => rfl
          | true =>
            rw [hskip u hqe] at hk
            cases hk
        rcases IH.2 hk with ⟨hany, hc, hl⟩ | ⟨e1, d2, d3, hf, hd2, hn2, hc, hl⟩
        · exact Or.inl ⟨by simp [List.any_cons, hqe, hany], hc, hl⟩
        · exact Or.inr ⟨e1, d2, d3,
            by simp only [List.find?_cons, hqe]; exact hf, hd2, hn2, hc, hl⟩
      · subst hm1
        by_cases hueq : u0 = u
        · subst hueq
          constructor
          · intro hk
            rw [hk0] at hk
            cases hk
          · intro _
            have hkm1 : keyMem (m0 ++ [(u0, d1)]) u0 = true := by
              rw [keyMem_append]
              simp [keyMem]
            have hcount1 : countKey (m0 ++ [(u0, d1)]) u0 = 1 := by
              rw [countKey_append, countKey_eq_zero_of_keyMem_false hk0, countKey_single_self]
            have hlook1 : lookupM (m0 ++ [(u0, d1)]) u0 = some d1 := by
              rw [lookupM_append, if_neg (by simp [hk0])]
              simp [lookupM_cons]
            obtain ⟨hc2, hl2⟩ := IH.1 hkm1
            exact Or.inr ⟨e, d, d1,
              by simp [List.find?_cons, hq0], hd, hn,
              by rw [hc2, hcount1], by rw [hl2, hlook1]⟩
        · have hqe : qualifies e u = false := by
            cases hqe : qualifies e u with
            | false => rfl
            | true => exact absurd (huniq u hqe).symm hueq
          have hkm1 : keyMem (m0 ++ [(u0, d1)]) u = keyMem m0 u := by
            rw [keyMem_append]
            simp [keyMem, hueq]
          have hcm1 : countKey (m0 ++ [(u0, d1)]) u = countKey m0 u := by
            rw [countKey_append, countKey_single_other _ _ _ hueq, Nat.add_zero]
          have hlm1 : lookupM (m0 ++ [(u0, d1)]) u = lookupM m0 u := by
            rw [lookupM_append]
            cases hkk : keyMem m0 u with
            | true => simp
            | false =>
              rw [lookupM_eq_none_of_keyMem_false hkk]
              simp only [Bool.false_eq_true, if_false, lookupM_cons, if_neg hueq]
              rfl
          constructor
          · intro hk
            obtain ⟨hc2, hl2⟩ := IH.1 (by rw [hkm1]; exact hk)
            exact ⟨by rw [hc2, hcm1], by rw [hl2, hlm1]⟩
          · intro hk
            rcases IH.2 (by rw [hkm1]; exact hk) with ⟨hany, hc, hl⟩ |
              ⟨e1, d2, d3, hf, hd2, hn2, hc, hl⟩
            · exact Or.inl ⟨by simp [List.any_cons, hqe, hany], hc, hl⟩
            · exact Or.inr ⟨e1, d2, d3,
                by simp only [List.find?_cons, hqe]; exact hf, hd2, hn2, hc, hl⟩

/-! ## Lemmas: CSV writing and re-reading -/

theorem parseAux_false_semi (cur r : List Char) :
    parseAux false cur (';' :: r) = cur.reverse :: parseAux false [] r := rfl

theorem parseAux_false_quote (cur r : List Char) :
    parseAux false cur ('"' :: r) = parseAux true cur r := rfl

theorem parseAux_false_other {c : Char} (h1 : c ≠ ';') (h2 : c ≠ '"') (cur r : List Char) :
    parseAux false cur (c :: r) = parseAux false (c :: cur) r := by
  simp only [parseAux, if_neg h1, if_neg h2]

theorem parseAux_true_other {c : Char} (h : c ≠ '"') (cur r : List Char) :
    parseAux true cur (c :: r) = parseAux true (c :: cur) r := by
  cases r with
  | nil => simp [parseAux, h]
  | cons c2 r2 => simp [parseAux, h]

theorem parseAux_true_quote_quote (cur r : List Char) :
    parseAux true cur ('"' :: '"' :: r) = parseAux true ('"' :: cur) r := rfl

theorem parseAux_true_quote_end (cur : List Char) :
    parseAux true cur ['"'] = [cur.reverse] := rfl

theorem parseAux_true_quote_other {c2 : Char} (h : c2 ≠ '"') (cur r2 : List Char) :
    parseAux true cur ('"' :: c2 :: r2) = parseAux false cur (c2 :: r2) := by
  simp [parseAux, h]

theorem parseAux_unquoted : ∀ f : List Char, (∀ c ∈ f, c ≠ ';' ∧ c ≠ '"') →
    ∀ (acc r : List Char),
      parseAux false acc (f ++ ';' :: r) = (acc.reverse ++ f) :: parseAux false [] r := by
  intro f
  induction f with
  | nil => intro _ acc r; simp [parseAux_false_semi]
  | cons c f ih =>
    intro hf acc r
    obtain ⟨h1, h2⟩ := hf c (List.mem_cons_self _ _)
    rw [List.cons_append, parseAux_false_other h1 h2]
    rw [ih (fun x hx => hf x (List.mem_cons_of_mem _ hx)) (c :: acc) r]
    simp

theorem parseAux_unquoted_end : ∀ f : List Char, (∀ c ∈ f, c ≠ ';' ∧ c ≠ '"') →
    ∀ acc : List Char, parseAux false acc f = [acc.reverse ++ f] := by
  intro f
  induction f with
  | nil => intro _ acc; simp [parseAux]
  | cons c f ih =>
    intro hf acc
    obtain ⟨h1, h2⟩ := hf c (List.mem_cons_self _ _)
    rw [parseAux_false_other h1 h2]
    rw [ih (fun x hx => hf x (List.mem_cons_of_mem _ hx)) (c :: acc)]
    simp

theorem parseAux_quoted : ∀ f : List Char, ∀ (acc r : List Char), r.head? ≠ some '"' →
    parseAux true acc (escQuotes f ++ '"' :: r) = parseAux false (f.reverse ++ acc) r := by
  intro f
  induction f with
  | nil =>
    intro acc r hr
    cases r with
    | nil => rfl
    | cons c2 r2 =>
      have hc2 : c2 ≠ '"' := by
        intro hh
        exact hr (by rw [hh]; rfl)
      exact parseAux_true_quote_other hc2 acc r2
  | cons c f ih =>
    intro acc r hr
    by_cases hc : c = '"'
    · subst hc
      rw [show escQuotes ('"' :: f) = '"' :: '"' :: escQuotes f from by simp [escQuotes]]
      rw [List.cons_append, List.cons_append, parseAux_true_quote_quote]
      rw [ih ('"' :: acc) r hr]
      simp
    · rw [show escQuotes (c :: f) = c :: escQuotes f from by simp [escQuotes, hc]]
      rw [List.cons_append, parseAux_true_other hc]
      rw [ih (c :: acc) r hr]
      simp

theorem parseRow_field (f : List Char) (r : List Char) :
    parseAux false [] (quoteField f ++ ';' :: r) = f :: parseAux false [] r := by
  by_cases hq : f.any needsQuoteC = true
  · rw [quoteField, if_pos hq]
    rw [show ('"' :: (escQuotes f ++ ['"'])) ++ ';' :: r
      = '"' :: (escQuotes f ++ '"' :: (';' :: r)) from by simp]
    rw [parseAux_false_quote, parseAux_quoted f [] (';' :: r) (by simp)]
    rw [List.append_nil, parseAux_false_semi]
    simp
  · rw [quoteField, if_neg hq]
    have hff : ∀ c ∈ f, c ≠ ';' ∧ c ≠ '"' := by
      intro c hc
      constructor <;> intro he <;>
        exact hq (List.any_eq_true.mpr ⟨c, hc, by rw [he]; rfl⟩)
    rw [parseAux_unquoted f hff [] r]
    simp

theorem parseRow_field_end (f : List Char) :
    parseAux false [] (quoteField f) = [f] := by
  by_cases hq : f.any needsQuoteC = true
  · rw [quoteField, if_pos hq]
    rw [show ('"' :: (escQuotes f ++ ['"'])) = '"' :: (escQuotes f ++ '"' :: []) from by simp]
    rw [parseAux_false_quote, parseAux_quoted f [] [] (by simp)]
    simp [parseAux]
  · rw [quoteField, if_neg hq]
    have hff : ∀ c ∈ f, c ≠ ';' ∧ c ≠ '"' := by
      intro c hc
      constructor <;> intro he <;>
        exact hq (List.any_eq_true.mpr ⟨c, hc, by rw [he]; rfl⟩)
    rw [parseAux_unquoted_end f hff []]
    simp

theorem parseRow_writeRow : ∀ cells : List (List Char), cells ≠ [] →
    parseRow (writeRow cells) = cells := by
  intro cells
  induction cells with
  | nil => intro h; exact absurd rfl h
  | cons f t ih =>
    intro _
    cases t with
    | nil => exact parseRow_field_end f
    | cons g t2 =>
      show parseAux false [] (quoteField f ++ ';' :: writeRow (g :: t2)) = f :: (g :: t2)
      rw [parseRow_field f (writeRow (g :: t2))]
      exact congrArg (List.cons f) (ih (by simp))

/-! ## Lemmas: sanitization and export rows -/

theorem mem_replaceChar {a b : Char} {l : List Char} {c : Char}
    (hc : c ∈ replaceChar a b l) : c = b ∨ c ∈ l := by
  simp only [replaceChar, List.mem_map] at hc
  obtain ⟨c0, hc0, rfl⟩ := hc
  by_cases h : c0 = a
  · left; simp [h]
  · right; simpa [h] using hc0

theorem replaceChar_ne (a b : Char) (hba : b ≠ a) {l : List Char} {c : Char}
    (hc : c ∈ replaceChar a b l) : c ≠ a := by
  simp only [replaceChar, List.mem_map] at hc
  obtain ⟨c0, _, rfl⟩ := hc
  show (if c0 = a then b else c0) ≠ a
  by_cases h : c0 = a
  · rw [if_pos h]; exact hba
  · rw [if_neg h]; exact h

theorem cleaned_no_crlf {l : List Char} {c : Char}
    (hc : c ∈ replaceChar ',' ';' (replaceChar '\r' ' ' (replaceChar '\n' ' ' l))) :
    c ≠ '\n' ∧ c ≠ '\r' := by
  rcases mem_replaceChar hc with rfl | hc2
  · exact ⟨by decide, by decide⟩
  · have hr : c ≠ '\r' := replaceChar_ne '\r' ' ' (by decide) hc2
    rcases mem_replaceChar hc2 with rfl | hc1
    · exact ⟨by decide, by decide⟩
    · exact ⟨replaceChar_ne '\n' ' ' (by decide) hc1, hr⟩

theorem cellText_cellOf {d : Dicom} {f : String} {c : List Char}
    (h : cellText (cellOf d f) = some c) :
    ∃ s0 : String, getattrDefault d f = .str s0 ∧
      c = replaceChar ',' ';' (replaceChar '\r' ' ' (replaceChar '\n' ' ' s0.data)) := by
  unfold cellOf at h
  cases hv : getattrDefault d f with
  | str s0 =>
    rw [hv] at h
    simp only [clean_value, cellText] at h
    exact ⟨s0, rfl, (Option.some.inj h).symm⟩
  | int n => rw [hv] at h; simp [clean_value, cellText] at h
  | float q => rw [hv] at h; simp [clean_value, cellText] at h
  | multi l => rw [hv] at h; simp [clean_value, cellText] at h

theorem cellsText_length : ∀ {vs : List PyVal} {cells : List (List Char)},
    cellsText vs = some cells → cells.length = vs.length := by
  intro vs
  induction vs with
  | nil => intro cells h; cases h; rfl
  | cons v vs ih =>
    intro cells h
    simp only [cellsText] at h
    cases hv : cellText v with
    | none => rw [hv] at h; cases h
    | some c =>
      rw [hv] at h
      cases hvs : cellsText vs with
      | none => rw [hvs] at h; cases h
      | some cs =>
        rw [hvs] at h
        cases h
        simp [ih hvs]

theorem cellsText_mem : ∀ {vs : List PyVal} {cells : List (List Char)},
    cellsText vs = some cells → ∀ c ∈ cells, ∃ v ∈ vs, cellText v = some c := by
  intro vs
  induction vs with
  | nil => intro cells h c hc; cases h; simp at hc
  | cons v vs ih =>
    intro cells h c hc
    simp only [cellsText] at h
    cases hv : cellText v with
    | none => rw [hv] at h; cases h
    | some c0 =>
      rw [hv] at h
      cases hvs : cellsText vs with
      | none => rw [hvs] at h; cases h
      | some cs =>
        rw [hvs] at h
        cases h
        rcases List.mem_cons.mp hc with rfl | hc2
        · exact ⟨v, List.mem_cons_self _ _, hv⟩
        · obtain ⟨v2, hv2, hv2c⟩ := ih hvs c hc2
          exact ⟨v2, List.mem_cons_of_mem _ hv2, hv2c⟩

theorem rowCells_length (d : Dicom) (fields : List String) :
    (rowCells d fields).length = fields.length := by
  simp [rowCells]

theorem list_get_map {α β : Type} (g : α → β) : ∀ (l : List α) (i : Nat) (hi : i < l.length)
    (hj : i < (l.map g).length), (l.map g).get ⟨i, hj⟩ = g (l.get ⟨i, hi⟩) := by
  intro l
  induction l with
  | nil => intro i hi _; exact absurd hi (by simp)
  | cons a t ih =>
    intro i hi hj
    cases i with
    | zero => rfl
    | succ n => exact ih n (by simpa using hi) (by simpa using hj)

/-! ## The claims -/

/-- C1: for every input list of traversal entries whose run completes, and
every Series Identifier, the examination map (hence the exported table,
one row per map entry) contains exactly one row for that identifier when
some qualifying record (non-derived, present non-empty identifier) carries
it and none otherwise, and that row is the first-encountered qualifying
record with that identifier, after its vendor normalization; later records
with the same identifier are dropped without merging any fields. -/
theorem dedup_first_wins (es : List FileEntry) (m : HeaderMap) (u : PyVal)
    (h : process_directory es = .ok m) :
    countKey m u = (if es.any (fun e => qualifies e u) = true then 1 else 0) ∧
    (∀ e, es.find? (fun e => qualifies e u) = some e →
      ∃ d d1, e.dicom = some d ∧ normalizeRecord e.root d = .ok d1 ∧
        lookupM m u = some d1) := by
  have hspec := processList_spec es [] m h u
  rcases hspec.2 rfl with ⟨hany, hc, _⟩ | ⟨e, d, d1, hf, hd, hn, hc, hl⟩
  · constructor
    · rw [hc, hany]
      rfl
    · intro e hfe
      exact absurd
        (List.any_eq_true.mpr ⟨e, List.mem_of_find?_eq_some hfe, List.find?_some hfe⟩)
        (by rw [hany]; exact Bool.false_ne_true)
  · constructor
    · rw [hc, List.any_eq_true.mpr ⟨e, List.mem_of_find?_eq_some hf, List.find?_some hf⟩]
      rfl
    · intro e2 hfe2
      rw [hf] at hfe2
      cases hfe2
      exact ⟨d, d1, hd, hn, hl⟩

/-- Witness for C1: two Sectra records with the same identifier; the map
holds exactly one row for it, the first record. -/
theorem dedup_first_wins_witness :
    process_directory
      [⟨none, some [("ImageType", .multi ["ORIGINAL"]), ("SeriesInstanceUID", .str "1.2.3"),
        ("Manufacturer", .str "Sectra"), ("KVP", .int 90)]⟩,
       ⟨none, some [("ImageType", .multi ["ORIGINAL"]), ("SeriesInstanceUID", .str "1.2.3"),
        ("Manufacturer", .str "Sectra"), ("KVP", .int 120)]⟩] =
      .ok [(.str "1.2.3",
        [("ImageType", .multi ["ORIGINAL"]), ("SeriesInstanceUID", .str "1.2.3"),
         ("Manufacturer", .str "Sectra"), ("KVP", .int 90)])] ∧
    countKey
      [(.str "1.2.3",
        [("ImageType", .multi ["ORIGINAL"]), ("SeriesInstanceUID", .str "1.2.3"),
         ("Manufacturer", .str "Sectra"), ("KVP", .int 90)])] (.str "1.2.3") = 1 := by
  refine ⟨by decide, ?_⟩
  rw [(dedup_first_wins
    [⟨none, some [("ImageType", .multi ["ORIGINAL"]), ("SeriesInstanceUID", .str "1.2.3"),
      ("Manufacturer", .str "Sectra"), ("KVP", .int 90)]⟩,
     ⟨none, some [("ImageType", .multi ["ORIGINAL"]), ("SeriesInstanceUID", .str "1.2.3"),
      ("Manufacturer", .str "Sectra"), ("KVP", .int 120)]⟩]
    [(.str "1.2.3",
      [("ImageType", .multi ["ORIGINAL"]), ("SeriesInstanceUID", .str "1.2.3"),
       ("Manufacturer", .str "Sectra"), ("KVP", .int 90)])]
    (.str "1.2.3") (by decide)).1]
  decide

/-- C5: a record whose derived-image test is positive (`"DERIVED"` in its
image-type attribute) is discarded during discovery: removing it from the
traversal does not change the result of the run at all, so it contributes
no row to the exported table. -/
theorem derived_excluded (e : FileEntry) (d : Dicom)
    (h1 : e.dicom = some d)
    (h2 : pyIn "DERIVED" (getattrOpt d "ImageType") = .ok true)
    (es1 es2 : List FileEntry) :
    process_directory (es1 ++ e :: es2) = process_directory (es1 ++ es2) := by
  unfold process_directory
  rw [processList_append, processList_append]
  cases hp : processList [] es1 with
  | error er => rfl
  | ok m1 =>
    show processList m1 (e :: es2) = processList m1 es2
    rw [processList_cons, processEntry_skip_derived h1 h2]

/-- Witness for C5: a derived record alone in the traversal leaves the
result equal to that of the empty traversal. -/
theorem derived_excluded_witness :
    pyIn "DERIVED" (getattrOpt [("ImageType", .multi ["ORIGINAL", "DERIVED"]),
      ("SeriesInstanceUID", .str "1.9")] "ImageType") = .ok true ∧
    process_directory ([] ++ (⟨none, some [("ImageType", .multi ["ORIGINAL", "DERIVED"]),
      ("SeriesInstanceUID", .str "1.9")]⟩ : FileEntry) :: []) = process_directory ([] ++ []) :=
  ⟨by decide,
    derived_excluded ⟨none, some [("ImageType", .multi ["ORIGINAL", "DERIVED"]),
      ("SeriesInstanceUID", .str "1.9")]⟩
      [("ImageType", .multi ["ORIGINAL", "DERIVED"]), ("SeriesInstanceUID", .str "1.9")]
      rfl (by decide) [] []⟩

/-- C7: a record that is parsed, non-derived and carries a fresh truthy
Series Identifier, but lacks the manufacturer attribute, makes the run
fail: `None.strip()` raises `AttributeError`, so `process_directory`
propagates a fatal error instead of skipping the record. -/
theorem missing_manufacturer_fatal (es1 : List FileEntry) (m : HeaderMap)
    (e : FileEntry) (d : Dicom) (u : PyVal) (es2 : List FileEntry)
    (h0 : processList [] es1 = .ok m)
    (h1 : e.dicom = some d)
    (h2 : pyIn "DERIVED" (getattrOpt d "ImageType") = .ok false)
    (h3 : getattrOpt d "SeriesInstanceUID" = some u)
    (h4 : truthy u = true)
    (h5 : keyMem m u = false)
    (h6 : getattrOpt d "Manufacturer" = none) :
    process_directory (es1 ++ e :: es2) = .error .attributeError := by
  unfold process_directory
  rw [processList_append, h0]
  show processList m (e :: es2) = .error .attributeError
  rw [processList_cons,
    processEntry_err_normalize h1 h2 h3 h4 h5 (normalizeRecord_nomfr h6)]

/-- Witness for C7: a record with image type and identifier but no
manufacturer crashes the run. -/
theorem missing_manufacturer_fatal_witness :
    getattrOpt [("ImageType", .multi ["ORIGINAL"]), ("SeriesInstanceUID", .str "2.4")]
      "Manufacturer" = none ∧
    process_directory ([] ++ (⟨none, some [("ImageType", .multi ["ORIGINAL"]),
      ("SeriesInstanceUID", .str "2.4")]⟩ : FileEntry) :: []) = .error .attributeError :=
  ⟨by decide,
    missing_manufacturer_fatal [] []
      ⟨none, some [("ImageType", .multi ["ORIGINAL"]), ("SeriesInstanceUID", .str "2.4")]⟩
      [("ImageType", .multi ["ORIGINAL"]), ("SeriesInstanceUID", .str "2.4")]
      (.str "2.4") [] rfl rfl (by decide) (by decide) (by decide) rfl (by decide)⟩

/-- C10: a successfully parsed record lacking the image-type attribute
makes the derived-image test run `"DERIVED" in None`, a `TypeError`; the
run aborts with a fatal error before the record can be filtered,
normalized or exported — the silent-skip policy does not cover this
case. -/
theorem missing_imagetype_fatal (es1 : List FileEntry) (m : HeaderMap)
    (e : FileEntry) (d : Dicom) (es2 : List FileEntry)
    (h0 : processList [] es1 = .ok m)
    (h1 : e.dicom = some d)
    (h2 : getattrOpt d "ImageType" = none) :
    process_directory (es1 ++ e :: es2) = .error .typeError := by
  unfold process_directory
  rw [processList_append, h0]
  show processList m (e :: es2) = .error .typeError
  rw [processList_cons, processEntry_err_imagetype h1 h2]

/-- Witness for C10: a record with an identifier but no image type aborts
the run with a `TypeError`. -/
theorem missing_imagetype_fatal_witness :
    getattrOpt [("SeriesInstanceUID", .str "3.1"), ("Manufacturer", .str "Sectra")]
      "ImageType" = none ∧
    process_directory ([] ++ (⟨none, some [("SeriesInstanceUID", .str "3.1"),
      ("Manufacturer", .str "Sectra")]⟩ : FileEntry) :: []) = .error .typeError :=
  ⟨by decide,
    missing_imagetype_fatal [] []
      ⟨none, some [("SeriesInstanceUID", .str "3.1"), ("Manufacturer", .str "Sectra")]⟩
      [("SeriesInstanceUID", .str "3.1"), ("Manufacturer", .str "Sectra")]
      [] rfl rfl (by decide)⟩

/-- C2: for every record whose manufacturer attribute contains `"Morita"`
and whose comments attribute contains a `DAP:<digits>mGycm2` substring
(the pattern search finds a match `r`), normalization overwrites the dose
attribute with the float value of the matched digits — `123.0` for
`DAP:123mGycm2` — and the exported cell of the dose field carries exactly
that value. -/
theorem morita_dap_extracted (root : Option DirTree) (d : Dicom) (mfr c : String)
    (r : List Char)
    (h1 : getattrOpt d "Manufacturer" = some (.str mfr))
    (h2 : containsSub ("Morita".data) mfr.data = true)
    (h3 : getattrOpt d "ImageComments" = some (.str c))
    (h4 : searchFirst dapMatchAt c.data = some r) :
    ∃ ds : List Char, r = "DAP:".data ++ (ds ++ "mGycm2".data) ∧ ds ≠ [] ∧
      (∀ x ∈ ds, x.isDigit = true) ∧
      extract_value_from_comments c = .ok (some (String.mk ds)) ∧
      normalizeRecord root d =
        .ok (setAttr d "AcquiredImageAreaDoseProduct" (.float ((natVal ds : Nat) : Rat))) ∧
      cellOf (setAttr d "AcquiredImageAreaDoseProduct" (.float ((natVal ds : Nat) : Rat)))
        "AcquiredImageAreaDoseProduct" = .float ((natVal ds : Nat) : Rat) := by
  have h2' : containsSub ("Morita".data) (stripList mfr.data) = true :=
    containsSub_stripList _ _ (by decide) (by decide) h2
  obtain ⟨ds, hr, hne, hdig, hex, hdose⟩ := moritaDose_of_search h4
  have hdose' : moritaDose (getattrOpt d "ImageComments") = .ok ((natVal ds : Nat) : Rat) := by
    rw [h3]
    exact hdose
  refine ⟨ds, hr, hne, hdig, hex, normalizeRecord_morita h1 h2' hdose', ?_⟩
  unfold cellOf getattrDefault
  rw [getattrOpt_setAttr_self]
  rfl

/-- Witness for C2: a Morita record whose comments hold `DAP:123mGycm2`
gets dose `123`. -/
theorem morita_dap_extracted_witness :
    searchFirst dapMatchAt ("Exam DAP:123mGycm2 end").data = some ("DAP:123mGycm2".data) ∧
    ((natVal ("123".data) : Nat) : Rat) = 123 ∧
    (∃ ds : List Char,
      "DAP:123mGycm2".data = "DAP:".data ++ (ds ++ "mGycm2".data) ∧ ds ≠ [] ∧
      (∀ x ∈ ds, x.isDigit = true) ∧
      extract_value_from_comments "Exam DAP:123mGycm2 end" = .ok (some (String.mk ds)) ∧
      normalizeRecord none [("Manufacturer", .str "Morita Accuitomo 170"),
          ("ImageComments", .str "Exam DAP:123mGycm2 end")] =
        .ok (setAttr [("Manufacturer", .str "Morita Accuitomo 170"),
          ("ImageComments", .str "Exam DAP:123mGycm2 end")]
          "AcquiredImageAreaDoseProduct" (.float ((natVal ds : Nat) : Rat))) ∧
      cellOf (setAttr [("Manufacturer", .str "Morita Accuitomo 170"),
          ("ImageComments", .str "Exam DAP:123mGycm2 end")]
          "AcquiredImageAreaDoseProduct" (.float ((natVal ds : Nat) : Rat)))
        "AcquiredImageAreaDoseProduct" = .float ((natVal ds : Nat) : Rat)) :=
  ⟨by decide, by decide,
    morita_dap_extracted none
      [("Manufacturer", .str "Morita Accuitomo 170"),
       ("ImageComments", .str "Exam DAP:123mGycm2 end")]
      "Morita Accuitomo 170" "Exam DAP:123mGycm2 end" ("DAP:123mGycm2".data)
      (by decide) (by decide) (by decide) (by decide)⟩

/-- C6 counterexample: on comments without the DAP pattern the extraction
step does not yield "no value" (`.ok none`) for a float conversion to
fail on — it raises `AttributeError` itself, at `match.group(0)` on the
failed search. -/
theorem extract_no_match_counterexample :
    extract_value_from_comments "Standard exposure" = .error .attributeError ∧
    extract_value_from_comments "Standard exposure" ≠ .ok none := by
  decide

/-- C6 (amended): for every Morita-matched record whose comments contain
no `DAP:<digits>mGycm2` substring, the extraction step itself raises a
fatal `AttributeError` (attribute access on the failed match) before any
value is yielded — the float conversion is never reached — and the run is
not silently continued: the whole directory processing aborts with that
error. -/
theorem morita_no_dap_fatal (es1 : List FileEntry) (m : HeaderMap) (e : FileEntry)
    (d : Dicom) (u : PyVal) (mfr c : String) (es2 : List FileEntry)
    (h0 : processList [] es1 = .ok m)
    (h1 : e.dicom = some d)
    (h2 : pyIn "DERIVED" (getattrOpt d "ImageType") = .ok false)
    (h3 : getattrOpt d "SeriesInstanceUID" = some u)
    (h4 : truthy u = true)
    (h5 : keyMem m u = false)
    (h6 : getattrOpt d "Manufacturer" = some (.str mfr))
    (h7 : containsSub ("Morita".data) (stripList mfr.data) = true)
    (h8 : getattrOpt d "ImageComments" = some (.str c))
    (h9 : searchFirst dapMatchAt c.data = none) :
    extract_value_from_comments c = .error .attributeError ∧
    process_directory (es1 ++ e :: es2) = .error .attributeError := by
  refine ⟨extract_none h9, ?_⟩
  unfold process_directory
  rw [processList_append, h0]
  show processList m (e :: es2) = .error .attributeError
  rw [processList_cons,
    processEntry_err_normalize h1 h2 h3 h4 h5 (normalizeRecord_morita_err h6 h7 h8 h9)]

/-- Witness for C6's amended claim: a Morita record with pattern-free
comments aborts the run with `AttributeError`. -/
theorem morita_no_dap_fatal_witness :
    searchFirst dapMatchAt ("Standard exposure").data = none ∧
    (extract_value_from_comments "Standard exposure" = .error .attributeError ∧
     process_directory ([] ++ (⟨none, some [("ImageType", .multi ["ORIGINAL"]),
       ("SeriesInstanceUID", .str "7.7"), ("Manufacturer", .str "Morita Accuitomo 170"),
       ("ImageComments", .str "Standard exposure")]⟩ : FileEntry) :: []) =
       .error .attributeError) :=
  ⟨by decide,
    morita_no_dap_fatal [] []
      ⟨none, some [("ImageType", .multi ["ORIGINAL"]), ("SeriesInstanceUID", .str "7.7"),
        ("Manufacturer", .str "Morita Accuitomo 170"),
        ("ImageComments", .str "Standard exposure")]⟩
      [("ImageType", .multi ["ORIGINAL"]), ("SeriesInstanceUID", .str "7.7"),
       ("Manufacturer", .str "Morita Accuitomo 170"),
       ("ImageComments", .str "Standard exposure")]
      (.str "7.7") "Morita Accuitomo 170" "Standard exposure" []
      rfl rfl (by decide) (by decide) (by decide) rfl (by decide) (by decide)
      (by decide) (by decide)⟩

/-- C3 counterexample: a record whose manufacturer contains `"Planmeca"`
but also `"Morita"` is handled by the Morita branch (the `elif` never
fires): its dose comes from the comments and its slice-count attribute is
not set at all, although the claim promises the file count (here a folder
of 120 files). -/
theorem planmeca_claim_counterexample :
    normalizeRecord (some (.node (List.replicate 120 "slice") []))
      [("Manufacturer", .str "Morita Planmeca"),
       ("AcquiredImageAreaDoseProduct", .int 50),
       ("ImageComments", .str "DAP:7mGycm2")] =
      .ok [("Manufacturer", .str "Morita Planmeca"),
       ("AcquiredImageAreaDoseProduct", .float 7),
       ("ImageComments", .str "DAP:7mGycm2")] ∧
    getattrOpt [("Manufacturer", .str "Morita Planmeca"),
       ("AcquiredImageAreaDoseProduct", .float 7),
       ("ImageComments", .str "DAP:7mGycm2")] "ImagesInAcquisition" = none := by
  constructor
  · decide
  · decide

/-- C3 (amended): for every record whose manufacturer attribute contains
`"Planmeca"` and not `"Morita"` (the Morita rule is tried first), and
whose dose attribute is present and converts to a float `q`, normalization
sets the slice-count attribute to the recursive regular-file count of the
record's containing directory and multiplies the dose by `100.0`; both
values are what the exported cells carry. -/
theorem planmeca_correction (root : Option DirTree) (d : Dicom) (mfr : String)
    (v : PyVal) (q : Rat)
    (h1 : getattrOpt d "Manufacturer" = some (.str mfr))
    (h2 : containsSub ("Planmeca".data) mfr.data = true)
    (h2m : containsSub ("Morita".data) mfr.data = false)
    (h3 : getattrOpt d "AcquiredImageAreaDoseProduct" = some v)
    (h4 : pyFloat v = .ok q) :
    normalizeRecord root d =
      .ok (setAttr (setAttr d "ImagesInAcquisition" (.int (count_files root)))
        "AcquiredImageAreaDoseProduct" (.float (q * 100))) ∧
    getattrOpt (setAttr (setAttr d "ImagesInAcquisition" (.int (count_files root)))
        "AcquiredImageAreaDoseProduct" (.float (q * 100))) "ImagesInAcquisition"
      = some (.int (count_files root)) ∧
    getattrOpt (setAttr (setAttr d "ImagesInAcquisition" (.int (count_files root)))
        "AcquiredImageAreaDoseProduct" (.float (q * 100))) "AcquiredImageAreaDoseProduct"
      = some (.float (q * 100)) ∧
    cellOf (setAttr (setAttr d "ImagesInAcquisition" (.int (count_files root)))
        "AcquiredImageAreaDoseProduct" (.float (q * 100))) "AcquiredImageAreaDoseProduct"
      = .float (q * 100) := by
  have hplan : containsSub ("Planmeca".data) (stripList mfr.data) = true :=
    containsSub_stripList _ _ (by decide) (by decide) h2
  have hnomor : containsSub ("Morita".data) (stripList mfr.data) = false := by
    cases hmor : containsSub ("Morita".data) (stripList mfr.data) with
    | false => rfl
    | true => exact absurd (containsSub_of_strip _ _ hmor) (by simp [h2m])
  refine ⟨normalizeRecord_planmeca h1 hnomor hplan h3 h4, ?_, ?_, ?_⟩
  · rw [getattrOpt_setAttr_other _ _ _ _ (by decide), getattrOpt_setAttr_self]
  · rw [getattrOpt_setAttr_self]
  · unfold cellOf getattrDefault
    rw [getattrOpt_setAttr_self]
    rfl

/-- Witness for C3's amended claim: a Planmeca record with dose `50` in a
folder of 120 files gets dose `50 * 100 = 5000` and slice count `120`. -/
theorem planmeca_correction_witness :
    pyFloat (.int 50) = .ok ((50 : Int) : Rat) ∧
    count_files (some (.node (List.replicate 120 "s") [])) = 120 ∧
    ((50 : Int) : Rat) * 100 = 5000 ∧
    (normalizeRecord (some (.node (List.replicate 120 "s") []))
        [("Manufacturer", .str "Planmeca ProMax Mid"),
         ("AcquiredImageAreaDoseProduct", .int 50)] =
      .ok (setAttr (setAttr [("Manufacturer", .str "Planmeca ProMax Mid"),
          ("AcquiredImageAreaDoseProduct", .int 50)]
          "ImagesInAcquisition"
          (.int (count_files (some (.node (List.replicate 120 "s") [])))))
        "AcquiredImageAreaDoseProduct" (.float (((50 : Int) : Rat) * 100)))) ∧
    getattrOpt (setAttr (setAttr [("Manufacturer", .str "Planmeca ProMax Mid"),
          ("AcquiredImageAreaDoseProduct", .int 50)]
          "ImagesInAcquisition"
          (.int (count_files (some (.node (List.replicate 120 "s") [])))))
        "AcquiredImageAreaDoseProduct" (.float (((50 : Int) : Rat) * 100)))
      "ImagesInAcquisition" = some (.int 120) :=
  have H := planmeca_correction (some (.node (List.replicate 120 "s") []))
    [("Manufacturer", .str "Planmeca ProMax Mid"), ("AcquiredImageAreaDoseProduct", .int 50)]
    "Planmeca ProMax Mid" (.int 50) ((50 : Int) : Rat)
    (by decide) (by decide) (by decide) (by decide) rfl
  ⟨rfl, rfl, by norm_num, H.1, by rw [H.2.1]; decide⟩

/-- C8: a record whose trimmed manufacturer attribute contains neither
`"Morita"` nor `"Planmeca"` passes through normalization completely
unchanged — no dose or slice-count mutation and no error — and, when it
is non-derived with a fresh truthy identifier, it is inserted into the
examination map exactly as parsed. -/
theorem vendor_passthrough (root : Option DirTree) (d : Dicom) (mfr : String)
    (h1 : getattrOpt d "Manufacturer" = some (.str mfr))
    (h2 : containsSub ("Morita".data) (stripList mfr.data) = false)
    (h3 : containsSub ("Planmeca".data) (stripList mfr.data) = false) :
    normalizeRecord root d = .ok d ∧
    ∀ (m : HeaderMap) (e : FileEntry) (u : PyVal),
      e.dicom = some d → e.root = root →
      pyIn "DERIVED" (getattrOpt d "ImageType") = .ok false →
      getattrOpt d "SeriesInstanceUID" = some u →
      truthy u = true → keyMem m u = false →
      processEntry m e = .ok (m ++ [(u, d)]) := by
  have hn : normalizeRecord root d = .ok d := normalizeRecord_nomatch h1 h2 h3
  refine ⟨hn, ?_⟩
  intro m e u hd hroot hit hu ht hk
  exact processEntry_insert hd hit hu ht hk (by rw [hroot]; exact hn)

/-- Witness for C8: a Sectra record is normalized to itself and inserted
as parsed. -/
theorem vendor_passthrough_witness :
    containsSub ("Morita".data)
      (stripList ("Sectra").data) = false ∧
    containsSub ("Planmeca".data)
      (stripList ("Sectra").data) = false ∧
    normalizeRecord none [("ImageType", .multi ["ORIGINAL"]),
      ("SeriesInstanceUID", .str "5.5"), ("Manufacturer", .str "Sectra")] =
      .ok [("ImageType", .multi ["ORIGINAL"]), ("SeriesInstanceUID", .str "5.5"),
        ("Manufacturer", .str "Sectra")] ∧
    processEntry [] (⟨none, some [("ImageType", .multi ["ORIGINAL"]),
      ("SeriesInstanceUID", .str "5.5"), ("Manufacturer", .str "Sectra")]⟩ : FileEntry) =
      .ok [(.str "5.5", [("ImageType", .multi ["ORIGINAL"]),
        ("SeriesInstanceUID", .str "5.5"), ("Manufacturer", .str "Sectra")])] :=
  have H := vendor_passthrough none
    [("ImageType", .multi ["ORIGINAL"]), ("SeriesInstanceUID", .str "5.5"),
     ("Manufacturer", .str "Sectra")]
    "Sectra" (by decide) (by decide) (by decide)
  ⟨by decide, by decide, H.1,
    H.2 [] ⟨none, some [("ImageType", .multi ["ORIGINAL"]),
      ("SeriesInstanceUID", .str "5.5"), ("Manufacturer", .str "Sectra")]⟩
      (.str "5.5") rfl rfl (by decide) (by decide) (by decide) rfl⟩

/-- C9: for every record and every selected field the record lacks, the
export writes the empty string in that column — `clean_value` applied to
the `getattr` default `""` — and the row still has one cell per selected
field; the export itself is a total function, so the run does not fail. -/
theorem missing_field_empty (d : Dicom) (fields : List String) (i : Nat)
    (hi : i < fields.length)
    (h : getattrOpt d (fields.get ⟨i, hi⟩) = none) :
    cellOf d (fields.get ⟨i, hi⟩) = .str "" ∧
    ∃ hj : i < (rowCells d fields).length,
      (rowCells d fields).get ⟨i, hj⟩ = .str "" := by
  have hcell : cellOf d (fields.get ⟨i, hi⟩) = .str "" := by
    unfold cellOf getattrDefault
    rw [h]
    rfl
  refine ⟨hcell, ⟨by rw [rowCells_length]; exact hi, ?_⟩⟩
  show (fields.map (cellOf d)).get ⟨i, _⟩ = .str ""
  rw [list_get_map (cellOf d) fields i hi]
  exact hcell

/-- Witness for C9: a record without `AccessionNumber` yields the empty
string in that column. -/
theorem missing_field_empty_witness :
    getattrOpt [("KVP", PyVal.int 90)]
      ((["AccessionNumber", "KVP"] : List String).get ⟨0, by decide⟩) = none ∧
    cellOf [("KVP", PyVal.int 90)]
      ((["AccessionNumber", "KVP"] : List String).get ⟨0, by decide⟩) = .str "" :=
  ⟨by decide,
    (missing_field_empty [("KVP", PyVal.int 90)] ["AccessionNumber", "KVP"] 0
      (by decide) (by decide)).1⟩

/-- C4 counterexample: `clean_value` does not replace the field delimiter
(semicolon) by another punctuation mark — it replaces commas *with*
semicolons and leaves existing semicolons in place: the cleaned value of
`"a;b\nc"` still contains `';'`. -/
theorem sanitize_counterexample :
    clean_value (.str "a;b\nc") = .str "a;b c" ∧
    containsSub (";".data) ("a;b c".data) = true := by
  decide

/-- C4 (amended): for every row whose selected values are all
string-typed, the export replaces each line-break character with a single
space and each comma with a semicolon; the delimiter itself is not
replaced, but `QUOTE_MINIMAL` quoting quotes any field still containing
it, so the written record re-read with the same delimiter parses back
into exactly the cells written — in particular into exactly one column
per selected field — and no cell retains a line break. -/
theorem export_row_roundtrip (d : Dicom) (fields : List String) (cells : List (List Char))
    (hne : fields ≠ [])
    (h : rowText d fields = some cells) :
    parseRow (writeRow cells) = cells ∧
    (parseRow (writeRow cells)).length = fields.length ∧
    ∀ c ∈ cells, ∀ x ∈ c, x ≠ '\n' ∧ x ≠ '\r' := by
  have hlen : cells.length = fields.length := by
    have hl := cellsText_length h
    rw [rowCells_length] at hl
    exact hl
  have hcne : cells ≠ [] := by
    intro hc
    subst hc
    exact hne (List.length_eq_zero.mp (by simpa using hlen.symm))
  have hrt := parseRow_writeRow cells hcne
  refine ⟨hrt, by rw [hrt, hlen], ?_⟩
  intro c hc x hx
  obtain ⟨v, hv, hvc⟩ := cellsText_mem h c hc
  obtain ⟨f, _, hfe⟩ := List.mem_map.mp (by simpa [rowCells] using hv)
  rw [← hfe] at hvc
  obtain ⟨s0, _, rfl⟩ := cellText_cellOf hvc
  exact cleaned_no_crlf hx

/-- Witness for C4's amended claim: the row of a record whose comments
contain a semicolon and a line break round-trips through write and
re-read with one column per field. -/
theorem export_row_roundtrip_witness :
    (["ImageComments"] : List String) ≠ [] ∧
    rowText [("ImageComments", .str "a;b\nc")] ["ImageComments"] = some ["a;b c".data] ∧
    (parseRow (writeRow ["a;b c".data]) = ["a;b c".data] ∧
     (parseRow (writeRow ["a;b c".data])).length = (["ImageComments"] : List String).length ∧
     ∀ c ∈ (["a;b c".data] : List (List Char)), ∀ x ∈ c, x ≠ '\n' ∧ x ≠ '\r') :=
  ⟨by decide, by decide,
    export_row_roundtrip [("ImageComments", .str "a;b\nc")] ["ImageComments"]
      ["a;b c".data] (by decide) (by decide)⟩

end DicomStats

